import Mathlib

/-!
# Verification of the opensensor-rs chunked archival pipeline

A shallow embedding of the archival pipeline of `opensensor-rs`:

* `src/archiver/main.rs` — the `run_archiver` loop (present in the source as a
  disabled block, but complete): consume → accumulate → encode → compress →
  upload → commit.
* `src/archiver/mod.rs` — `upload_object_zstd`.
* `src/archiver/error.rs` — `ArchiveError`.
* `src/measurement.rs` — the `Measurement::from_message` default implementation.

Byte sequences are modelled as `List Nat`; Kafka messages carry an optional
payload exactly as `Message::payload()` returns `Option<&[u8]>`.  External
collaborators (the zstd codec, chrono's RFC 3339 rendering, the flatbuffers
builders) are not code of this repository; each is modelled from the spec and
marked as such in its doc comment.  All definitions are executable.
-/

/-- Payload bytes, modelled as a list of naturals (one per byte). -/
abbrev Bytes := List Nat

/-- A consumed broker message.  `payload` mirrors `Message::payload()`
returning `Option<&[u8]>`; `none` models an absent payload.  Broker-level
read errors are not modelled (the source unwraps them). -/
structure Msg where
  payload : Option Bytes
deriving DecidableEq, Repr

/-- The configuration values `run_archiver` reads from the parsed `Cli`
(`src/archiver/cli.rs`): sensor name, bucket name and `chunk_size`. -/
structure Config where
  sensorName : String
  bucketName : String
  chunkSize : Nat
deriving Repr

/-- `ArchiveError` from `src/archiver/error.rs`: the two variants wrap a
Kafka error and an S3 error respectively (the wrapped collaborator error
values are abstracted away). -/
inductive ArchiveError where
  | kafkaError
  | s3Error
deriving DecidableEq, Repr

/-- Observable events of one run of the archival loop, in program order:
the `WARN` log on an empty payload, the upload outcome of a flush (tagged
with the flush cycle and, on success, the object key), and the commit
outcome of a flush. -/
inductive Event where
  | warnEmpty
  | uploadOk (cycle : Nat) (key : String)
  | uploadFail (cycle : Nat)
  | commitOk (cycle : Nat)
  | commitFail (cycle : Nat)
deriving DecidableEq, Repr

/-- An object as stored by the S3 collaborator after a successful
`put_object`: bucket, key, body and the content-type/content-encoding
tags set by `upload_object_zstd`. -/
structure S3Object where
  bucket : String
  key : String
  body : Bytes
  contentType : String
  contentEncoding : String
deriving DecidableEq, Repr

/-- Modelled from the spec: the zstd codec used by `upload_object_zstd`
(`zstd::bulk::compress(data, 0)` — the zstd crate is external, not under
`src/`).  The spec's contract is `compress(bytes) -> bytes` with
`decompress` its exact inverse; compression is modelled as an invertible
framing of the input behind the four zstd magic bytes. -/
def zstdCompress (bs : Bytes) : Bytes := 40 :: 181 :: 47 :: 253 :: bs

/-- Modelled from the spec: inverse of `zstdCompress` (see there). -/
def zstdDecompress (bs : Bytes) : Bytes := bs.drop 4

/-- `upload_object_zstd` from `src/archiver/mod.rs`: compresses the data
with zstd and puts it with `content_type("application/octet-stream")` and
`content_encoding("zstd")`.  The S3 `put_object` collaborator is modelled
by returning the object it durably stores on success. -/
def upload_object_zstd (dataUncompressed : Bytes) (bucketName key : String) : S3Object :=
  { bucket := bucketName
    key := key
    body := zstdCompress dataUncompressed
    contentType := "application/octet-stream"
    contentEncoding := "zstd" }

/-- Modelled from the spec: the flatbuffers container built at flush time
(`RadarVector2D` holding N `RadarMeasurement2d` sub-structures — the
flatbuffers builders are generated code, not under `src/`).  The spec calls
it a self-describing container; it is modelled as a length-framed
concatenation of the per-record byte strings, in the order the records were
written into the builder. -/
def encodeFrames : List Bytes → Bytes
  | [] => []
  | r :: rs => r.length :: (r ++ encodeFrames rs)

/-- Fuelled worker for `decodeFrames` (fuel bounds the number of frames,
keeping the definition structurally recursive). -/
def decodeFramesCore : Nat → Bytes → Option (List Bytes)
  | _, [] => some []
  | 0, _ :: _ => none
  | fuel + 1, n :: rest =>
    if n ≤ rest.length then
      match decodeFramesCore fuel (rest.drop n) with
      | some rs => some (rest.take n :: rs)
      | none => none
    else none

/-- Modelled from the spec: the reader of the self-describing container
(`decode(ArchivalChunk) -> Batch-equivalent sequence`), inverse of
`encodeFrames`. -/
def decodeFrames (bs : Bytes) : Option (List Bytes) := decodeFramesCore bs.length bs

/-- The artifact built by one flush of `run_archiver`: the loop pops the
`archival_buffer` (`Vec::pop` takes from the back, so records enter the
flatbuffers container in reverse insertion order) and finishes the
container.  A record's content is modelled by its payload bytes (the
`root_as_radar_measurement_2d` parse and rebuild of strengths/theta is
generated flatbuffers code and is modelled as the identity on the
payload). -/
def flushArtifact (archivalBuffer : List Bytes) : Bytes :=
  encodeFrames archivalBuffer.reverse

/-- Decimal digits of `n`, least significant first, with explicit fuel so
the definition is structurally recursive (`decDigitsCore n n` suffices). -/
def decDigitsCore : Nat → Nat → List Nat
  | 0, _ => []
  | fuel + 1, n => if n = 0 then [] else n % 10 :: decDigitsCore fuel (n / 10)

/-- Decimal digits of `n`, least significant first (`[]` for `0`). -/
def decDigits (n : Nat) : List Nat := decDigitsCore n n

/-- Modelled from the spec: chrono's `Utc::now().to_rfc3339()` rendering of
the archival wall-clock time (chrono is an external crate, not under
`src/`).  The design relies on the rendering being an injective image of a
high-resolution timestamp; the calendar layout is abstracted, keeping the
decimal digits of the nanosecond timestamp followed by the UTC offset
suffix. -/
def toRfc3339 (t : Nat) : String :=
  String.mk ((decDigits t).reverse.map Nat.digitChar) ++ "+00:00"

/-- The object key computed by a flush in `run_archiver`:
`format!("{}/{}", cli.sensor_name(), now.to_rfc3339())`. -/
def archiveKey (sensorName : String) (t : Nat) : String :=
  sensorName ++ "/" ++ toRfc3339 t

/-- The mutable locals of `run_archiver` together with the observables of
the run: `chunk_counter`, `archival_buffer`, the number of completed
upload+commit cycles, the objects stored by the S3 collaborator, and the
events logged so far. -/
structure LoopState where
  chunkCounter : Nat
  archivalBuffer : List Bytes
  cycle : Nat
  storage : List S3Object
  events : List Event
deriving DecidableEq, Repr

/-- State at loop entry: counter 0, empty buffer, nothing stored. -/
def initState : LoopState :=
  { chunkCounter := 0, archivalBuffer := [], cycle := 0, storage := [], events := [] }

/-- The flush block of `run_archiver` (the body of
`if chunk_counter == chunk_size`): drain the buffer into the container,
compute the key from the wall clock, `upload_object_zstd`, then
`commit_consumer_state`.  Upload failure returns `ArchiveError::S3Error`;
commit failure returns `ArchiveError::KafkaError`; only after a successful
commit is `chunk_counter` reset to `0`.  `ts` supplies the wall-clock
timestamp of each flush cycle; `uploadFails`/`commitFails` model the
collaborators' outcomes per cycle. -/
def flushStep (cfg : Config) (ts : Nat → Nat) (uploadFails commitFails : Nat → Bool)
    (s : LoopState) : Except (ArchiveError × LoopState) LoopState :=
  let key := archiveKey cfg.sensorName (ts s.cycle)
  let obj := upload_object_zstd (flushArtifact s.archivalBuffer) cfg.bucketName key
  if uploadFails s.cycle then
    Except.error (ArchiveError.s3Error,
      { s with archivalBuffer := []
               events := s.events ++ [Event.uploadFail s.cycle] })
  else if commitFails s.cycle then
    Except.error (ArchiveError.kafkaError,
      { s with archivalBuffer := []
               storage := s.storage ++ [obj]
               events := s.events ++ [Event.uploadOk s.cycle key, Event.commitFail s.cycle] })
  else
    Except.ok
      { s with chunkCounter := 0
               archivalBuffer := []
               cycle := s.cycle + 1
               storage := s.storage ++ [obj]
               events := s.events ++ [Event.uploadOk s.cycle key, Event.commitOk s.cycle] }

/-- One iteration of the `while let Some(m) = stream.next().await` body:
`chunk_counter += 1` happens before the empty-payload check; an absent
payload logs a warning and `continue`s; a present payload is pushed onto
`archival_buffer`; the flush block runs when `chunk_counter == chunk_size`. -/
def msgStep (cfg : Config) (ts : Nat → Nat) (uploadFails commitFails : Nat → Bool)
    (s : LoopState) (m : Msg) : Except (ArchiveError × LoopState) LoopState :=
  match m.payload with
  | none =>
    Except.ok { s with chunkCounter := s.chunkCounter + 1
                       events := s.events ++ [Event.warnEmpty] }
  | some bytes =>
    let s1 := { s with chunkCounter := s.chunkCounter + 1
                       archivalBuffer := s.archivalBuffer ++ [bytes] }
    if s1.chunkCounter = cfg.chunkSize then
      flushStep cfg ts uploadFails commitFails s1
    else
      Except.ok s1

/-- The stream loop of `run_archiver`: process messages until the stream
ends (`Ok(())`) or an error is returned from a flush. -/
def runLoop (cfg : Config) (ts : Nat → Nat) (uploadFails commitFails : Nat → Bool) :
    List Msg → LoopState → LoopState × Except ArchiveError Unit
  | [], s => (s, Except.ok ())
  | m :: rest, s =>
    match msgStep cfg ts uploadFails commitFails s m with
    | Except.ok s1 => runLoop cfg ts uploadFails commitFails rest s1
    | Except.error (e, s1) => (s1, Except.error e)

/-- `run_archiver` from `src/archiver/main.rs`, over the finite stream of
consumed messages: returns the final state (buffer, storage, events) and
the process-boundary result. -/
def run_archiver (cfg : Config) (ts : Nat → Nat) (uploadFails commitFails : Nat → Bool)
    (msgs : List Msg) : LoopState × Except ArchiveError Unit :=
  runLoop cfg ts uploadFails commitFails msgs initState

/-- Default implementation of `Measurement::from_message`
(`src/measurement.rs`): absent payload returns the measurement type's
`empty_payload_error()`, otherwise the result is `from_bytes` applied to
the payload.  `from_bytes` and the error value are the implementer-supplied
trait members. -/
def from_message {α ε : Type} (from_bytes : Bytes → Except ε α) (empty_payload : ε)
    (message : Msg) : Except ε α :=
  match message.payload with
  | none => Except.error empty_payload
  | some b => from_bytes b

/-! ## The codec and the container format -/

theorem zstd_roundtrip (bs : Bytes) : zstdDecompress (zstdCompress bs) = bs := rfl

theorem length_le_encodeFrames (rs : List Bytes) : rs.length ≤ (encodeFrames rs).length := by
  induction rs with
  | nil => simp [encodeFrames]
  | cons r rest ih =>
    simp only [encodeFrames, List.length_cons, List.length_append]
    omega

theorem decodeFramesCore_encodeFrames (rs : List Bytes) :
    ∀ fuel, rs.length ≤ fuel → decodeFramesCore fuel (encodeFrames rs) = some rs := by
  induction rs with
  | nil =>
    intro fuel _
    cases fuel <;> simp [encodeFrames, decodeFramesCore]
  | cons r rest ih =>
    intro fuel hfuel
    match fuel with
    | f + 1 =>
      have hlen : r.length ≤ (r ++ encodeFrames rest).length := by
        simp [List.length_append]
      have hdrop : (r ++ encodeFrames rest).drop r.length = encodeFrames rest :=
        List.drop_left r (encodeFrames rest)
      have htake : (r ++ encodeFrames rest).take r.length = r :=
        List.take_left r (encodeFrames rest)
      have hrest : rest.length ≤ f := by
        simpa using hfuel
      simp [encodeFrames, decodeFramesCore, hlen, hdrop, htake, ih f hrest]

theorem decodeFrames_encodeFrames (rs : List Bytes) :
    decodeFrames (encodeFrames rs) = some rs :=
  decodeFramesCore_encodeFrames rs (encodeFrames rs).length (length_le_encodeFrames rs)

/-! ## Injectivity of the timestamp rendering and the archive key -/

/-- Value of a little-endian decimal digit list (left inverse of `decDigits`). -/
def undigits : List Nat → Nat
  | [] => 0
  | d :: ds => d + 10 * undigits ds

theorem undigits_decDigitsCore : ∀ fuel n, n ≤ fuel → undigits (decDigitsCore fuel n) = n := by
  intro fuel
  induction fuel with
  | zero => intro n hn; interval_cases n; simp [decDigitsCore, undigits]
  | succ f ih =>
    intro n hn
    by_cases h0 : n = 0
    · simp [decDigitsCore, h0, undigits]
    · have hdiv : n / 10 ≤ f := by
        have := Nat.div_lt_self (Nat.pos_of_ne_zero h0) (by norm_num : 1 < 10)
        omega
      simp only [decDigitsCore, h0, if_false, undigits, ih (n / 10) hdiv]
      omega

theorem undigits_decDigits (n : Nat) : undigits (decDigits n) = n :=
  undigits_decDigitsCore n n (Nat.le_refl n)

theorem decDigits_injective : Function.Injective decDigits := by
  intro a b h
  have ha := undigits_decDigits a
  have hb := undigits_decDigits b
  rw [h] at ha
  omega

theorem decDigitsCore_lt_ten : ∀ fuel n d, d ∈ decDigitsCore fuel n → d < 10 := by
  intro fuel
  induction fuel with
  | zero => intro n d hd; simp [decDigitsCore] at hd
  | succ f ih =>
    intro n d hd
    by_cases h0 : n = 0
    · simp [decDigitsCore, h0] at hd
    · simp only [decDigitsCore, h0, if_false, List.mem_cons] at hd
      rcases hd with hd | hd
      · subst hd; exact Nat.mod_lt _ (by norm_num)
      · exact ih (n / 10) d hd

theorem decDigits_lt_ten (n d : Nat) (hd : d ∈ decDigits n) : d < 10 :=
  decDigitsCore_lt_ten n n d hd

theorem digitChar_inj_lt : ∀ a, a < 10 → ∀ b, b < 10 →
    Nat.digitChar a = Nat.digitChar b → a = b := by decide

theorem map_digitChar_inj : ∀ l1 l2 : List Nat, (∀ x ∈ l1, x < 10) → (∀ x ∈ l2, x < 10) →
    l1.map Nat.digitChar = l2.map Nat.digitChar → l1 = l2 := by
  intro l1
  induction l1 with
  | nil => intro l2 _ _ h; cases l2 <;> simp_all
  | cons a l1 ih =>
    intro l2 h1 h2 h
    cases l2 with
    | nil => simp at h
    | cons b l2 =>
      simp only [List.map_cons, List.cons.injEq] at h
      have hab : a = b :=
        digitChar_inj_lt a (h1 a (List.mem_cons_self a l1)) b
          (h2 b (List.mem_cons_self b l2)) h.1
      have htl : l1 = l2 :=
        ih l2 (fun x hx => h1 x (List.mem_cons_of_mem a hx))
          (fun x hx => h2 x (List.mem_cons_of_mem b hx)) h.2
      rw [hab, htl]

theorem toRfc3339_injective : Function.Injective toRfc3339 := by
  intro a b h
  have hdata : (toRfc3339 a).data = (toRfc3339 b).data := congrArg String.data h
  simp only [toRfc3339, String.data_append] at hdata
  have hmk : ((decDigits a).reverse.map Nat.digitChar) =
      ((decDigits b).reverse.map Nat.digitChar) :=
    List.append_cancel_right hdata
  have hrev : (decDigits a).reverse = (decDigits b).reverse :=
    map_digitChar_inj _ _
      (fun x hx => decDigits_lt_ten a x (List.mem_reverse.mp hx))
      (fun x hx => decDigits_lt_ten b x (List.mem_reverse.mp hx)) hmk
  exact decDigits_injective (List.reverse_injective hrev)

theorem archiveKey_inj (sensorName : String) (t1 t2 : Nat)
    (h : archiveKey sensorName t1 = archiveKey sensorName t2) : t1 = t2 := by
  have hdata : (archiveKey sensorName t1).data = (archiveKey sensorName t2).data :=
    congrArg String.data h
  simp only [archiveKey, String.data_append, List.append_assoc] at hdata
  have h1 : (toRfc3339 t1).data = (toRfc3339 t2).data := by
    have := List.append_cancel_left hdata
    exact List.append_cancel_left this
  exact toRfc3339_injective (String.ext h1)

/-! ## Loop lemmas -/

theorem runLoop_append_ok (cfg : Config) (ts : Nat → Nat) (uf cf : Nat → Bool) :
    ∀ (xs ys : List Msg) (s s1 : LoopState),
      runLoop cfg ts uf cf xs s = (s1, Except.ok ()) →
      runLoop cfg ts uf cf (xs ++ ys) s = runLoop cfg ts uf cf ys s1 := by
  intro xs
  induction xs with
  | nil =>
    intro ys s s1 h
    simp only [runLoop, Prod.mk.injEq] at h
    simp [h.1]
  | cons m rest ih =>
    intro ys s s1 h
    simp only [runLoop, List.cons_append] at h ⊢
    cases hstep : msgStep cfg ts uf cf s m with
    | ok s2 =>
      rw [hstep] at h
      exact ih ys s2 s1 h
    | error es =>
      rw [hstep] at h
      simp at h

theorem runLoop_accum (cfg : Config) (ts : Nat → Nat) (uf cf : Nat → Bool) :
    ∀ (ps : List Bytes) (s : LoopState),
      s.chunkCounter + ps.length < cfg.chunkSize →
      runLoop cfg ts uf cf (ps.map fun p => Msg.mk (some p)) s =
        ({ s with chunkCounter := s.chunkCounter + ps.length
                  archivalBuffer := s.archivalBuffer ++ ps }, Except.ok ()) := by
  intro ps
  induction ps with
  | nil =>
    intro s _
    simp [runLoop]
  | cons p rest ih =>
    intro s hlt
    have hne : ¬ (s.chunkCounter + 1 = cfg.chunkSize) := by
      simp only [List.length_cons] at hlt
      omega
    obtain ⟨c, buf, cy, st, ev⟩ := s
    simp only [List.map_cons, runLoop, msgStep, hne, if_false]
    rw [ih ⟨c + 1, buf ++ [p], cy, st, ev⟩ (by simp at hlt ⊢; omega)]
    simp only [List.length_cons, Prod.mk.injEq, LoopState.mk.injEq, and_true, true_and]
    constructor
    · omega
    · simp

/-- Every commit event (successful or failed) at a position of the trace is
preceded by a successful upload event of the same flush cycle. -/
def commitsAfterUploads (evs : List Event) : Prop :=
  ∀ (i n : Nat), (evs[i]? = some (Event.commitOk n) ∨ evs[i]? = some (Event.commitFail n)) →
    ∃ j k, j < i ∧ evs[j]? = some (Event.uploadOk n k)

theorem cau_nil : commitsAfterUploads [] := by
  intro i n h
  rcases h with h | h <;> simp at h

theorem cau_append (evs tail : List Event) (h1 : commitsAfterUploads evs)
    (h2 : ∀ (i n : Nat), (tail[i]? = some (Event.commitOk n) ∨ tail[i]? = some (Event.commitFail n)) →
      ∃ j k, j < i ∧ tail[j]? = some (Event.uploadOk n k)) :
    commitsAfterUploads (evs ++ tail) := by
  intro i n hi
  by_cases hlt : i < evs.length
  · rw [List.getElem?_append_left hlt] at hi
    obtain ⟨j, k, hj, hjev⟩ := h1 i n hi
    exact ⟨j, k, hj, by rw [List.getElem?_append_left (Nat.lt_trans hj hlt)]; exact hjev⟩
  · push_neg at hlt
    rw [List.getElem?_append_right hlt] at hi
    obtain ⟨j, k, hj, hjev⟩ := h2 (i - evs.length) n hi
    refine ⟨evs.length + j, k, by omega, ?_⟩
    rw [List.getElem?_append_right (Nat.le_add_right _ _)]
    simpa [Nat.add_sub_cancel_left] using hjev

theorem cau_block_warn : ∀ (i n : Nat),
    (([Event.warnEmpty])[i]? = some (Event.commitOk n) ∨
     ([Event.warnEmpty])[i]? = some (Event.commitFail n)) →
    ∃ j k, j < i ∧ ([Event.warnEmpty])[j]? = some (Event.uploadOk n k) := by
  intro i n h
  rcases i with _ | i <;> rcases h with h | h <;> simp at h

theorem cau_block_upFail (c : Nat) : ∀ (i n : Nat),
    (([Event.uploadFail c])[i]? = some (Event.commitOk n) ∨
     ([Event.uploadFail c])[i]? = some (Event.commitFail n)) →
    ∃ j k, j < i ∧ ([Event.uploadFail c])[j]? = some (Event.uploadOk n k) := by
  intro i n h
  rcases i with _ | i <;> rcases h with h | h <;> simp at h

theorem cau_block_flushOk (c : Nat) (key : String) : ∀ (i n : Nat),
    (([Event.uploadOk c key, Event.commitOk c])[i]? = some (Event.commitOk n) ∨
     ([Event.uploadOk c key, Event.commitOk c])[i]? = some (Event.commitFail n)) →
    ∃ j k, j < i ∧ ([Event.uploadOk c key, Event.commitOk c])[j]? = some (Event.uploadOk n k) := by
  intro i n h
  rcases i with _ | _ | i <;> rcases h with h | h <;> simp_all

theorem cau_block_flushFail (c : Nat) (key : String) : ∀ (i n : Nat),
    (([Event.uploadOk c key, Event.commitFail c])[i]? = some (Event.commitOk n) ∨
     ([Event.uploadOk c key, Event.commitFail c])[i]? = some (Event.commitFail n)) →
    ∃ j k, j < i ∧ ([Event.uploadOk c key, Event.commitFail c])[j]? = some (Event.uploadOk n k) := by
  intro i n h
  rcases i with _ | _ | i <;> rcases h with h | h <;> simp_all

theorem cau_runLoop (cfg : Config) (ts : Nat → Nat) (uf cf : Nat → Bool) :
    ∀ (msgs : List Msg) (s : LoopState), commitsAfterUploads s.events →
      commitsAfterUploads (runLoop cfg ts uf cf msgs s).1.events := by
  intro msgs
  induction msgs with
  | nil => intro s h; simpa [runLoop] using h
  | cons m rest ih =>
    intro s h
    cases hp : m.payload with
    | none =>
      simp only [runLoop, msgStep, hp]
      exact ih _ (cau_append _ _ h cau_block_warn)
    | some b =>
      by_cases hc : s.chunkCounter + 1 = cfg.chunkSize
      · by_cases hu : uf s.cycle
        · simp only [runLoop, msgStep, hp, hc, if_true, flushStep, hu]
          exact cau_append _ _ h (cau_block_upFail _)
        · by_cases hcf : cf s.cycle
          · simp only [runLoop, msgStep, hp, hc, if_true, flushStep, hu, hcf,
              Bool.false_eq_true, if_false]
            exact cau_append _ _ h (cau_block_flushFail _ _)
          · simp only [runLoop, msgStep, hp, hc, if_true, flushStep, hu, hcf,
              Bool.false_eq_true, if_false]
            exact ih _ (cau_append _ _ h (cau_block_flushOk _ _))
      · simp only [runLoop, msgStep, hp, hc, if_false]
        exact ih _ h

/-- A trace with no failure events (every state reached while the loop is
still running has such a trace: a failure event ends the run at once). -/
def noFail (evs : List Event) : Prop :=
  ∀ n : Nat, Event.uploadFail n ∉ evs ∧ Event.commitFail n ∉ evs

theorem noFail_nil : noFail [] := by intro n; simp

theorem noFail_append_warn (evs : List Event) (h : noFail evs) :
    noFail (evs ++ [Event.warnEmpty]) := by
  intro n
  have := h n
  simp_all

theorem noFail_append_flushOk (evs : List Event) (c : Nat) (key : String) (h : noFail evs) :
    noFail (evs ++ [Event.uploadOk c key, Event.commitOk c]) := by
  intro n
  have := h n
  simp_all

/-- Exit shapes of the loop: a clean exit keeps a failure-free trace; an
`S3Error` exit ends the trace with exactly one `uploadFail`; a `KafkaError`
exit ends the trace with an `uploadOk` immediately followed by its
`commitFail`, the uploaded object being in storage. -/
theorem exit_shape (cfg : Config) (ts : Nat → Nat) (uf cf : Nat → Bool) :
    ∀ (msgs : List Msg) (s : LoopState), noFail s.events →
      ∀ (s1 : LoopState) (r : Except ArchiveError Unit),
        runLoop cfg ts uf cf msgs s = (s1, r) →
        (r = Except.ok () → noFail s1.events) ∧
        (r = Except.error ArchiveError.s3Error →
          ∃ l n, s1.events = l ++ [Event.uploadFail n] ∧ noFail l) ∧
        (r = Except.error ArchiveError.kafkaError →
          ∃ l n key, s1.events = l ++ [Event.uploadOk n key, Event.commitFail n] ∧ noFail l ∧
            ∃ obj, obj ∈ s1.storage ∧ obj.key = key ∧ obj.contentEncoding = "zstd") := by
  intro msgs
  induction msgs with
  | nil =>
    intro s h s1 r hrun
    simp only [runLoop, Prod.mk.injEq] at hrun
    obtain ⟨hs, hr⟩ := hrun
    subst hs
    refine ⟨fun _ => h, fun hc => ?_, fun hc => ?_⟩ <;> rw [← hr] at hc <;> simp at hc
  | cons m rest ih =>
    intro s h s1 r hrun
    cases hp : m.payload with
    | none =>
      simp only [runLoop, msgStep, hp] at hrun
      exact ih _ (noFail_append_warn _ h) s1 r hrun
    | some b =>
      by_cases hc : s.chunkCounter + 1 = cfg.chunkSize
      · by_cases hu : uf s.cycle
        · simp only [runLoop, msgStep, hp, hc, if_true, flushStep, hu, if_pos,
            Prod.mk.injEq] at hrun
          obtain ⟨hs, hr⟩ := hrun
          subst hs
          refine ⟨fun hx => ?_, fun _ => ?_, fun hx => ?_⟩
          · rw [← hr] at hx; simp at hx
          · exact ⟨s.events, s.cycle, rfl, h⟩
          · rw [← hr] at hx; simp at hx
        · by_cases hcf : cf s.cycle
          · simp only [runLoop, msgStep, hp, hc, if_true, flushStep, hu,
              Bool.false_eq_true, if_false, hcf, Prod.mk.injEq] at hrun
            obtain ⟨hs, hr⟩ := hrun
            subst hs
            refine ⟨fun hx => ?_, fun hx => ?_, fun _ => ?_⟩
            · rw [← hr] at hx; simp at hx
            · rw [← hr] at hx; simp at hx
            · refine ⟨s.events, s.cycle, archiveKey cfg.sensorName (ts s.cycle),
                by simp, h, ?_⟩
              exact ⟨upload_object_zstd
                  (flushArtifact (s.archivalBuffer ++ [b])) cfg.bucketName
                  (archiveKey cfg.sensorName (ts s.cycle)),
                by simp, rfl, rfl⟩
          · simp only [runLoop, msgStep, hp, hc, if_true, flushStep, hu, hcf,
              Bool.false_eq_true, if_false] at hrun
            exact ih _ (noFail_append_flushOk _ _ _ h) s1 r hrun
      · simp only [runLoop, msgStep, hp, hc, if_false] at hrun
        exact ih { s with chunkCounter := s.chunkCounter + 1
                          archivalBuffer := s.archivalBuffer ++ [b] } h s1 r hrun

/-- Every successful-upload event carries the key the flush computed from
the configured sensor name and that cycle's wall-clock timestamp. -/
def keysWellFormed (cfg : Config) (ts : Nat → Nat) (evs : List Event) : Prop :=
  ∀ (n : Nat) (k : String), Event.uploadOk n k ∈ evs → k = archiveKey cfg.sensorName (ts n)

theorem keysWellFormed_runLoop (cfg : Config) (ts : Nat → Nat) (uf cf : Nat → Bool) :
    ∀ (msgs : List Msg) (s : LoopState),
      keysWellFormed cfg ts s.events →
      keysWellFormed cfg ts (runLoop cfg ts uf cf msgs s).1.events := by
  intro msgs
  induction msgs with
  | nil => intro s h; simpa [runLoop] using h
  | cons m rest ih =>
    intro s h
    cases hp : m.payload with
    | none =>
      simp only [runLoop, msgStep, hp]
      refine ih _ ?_
      intro n k hk
      simp only [List.mem_append, List.mem_singleton] at hk
      rcases hk with hk | hk
      · exact h n k hk
      · simp at hk
    | some b =>
      by_cases hc : s.chunkCounter + 1 = cfg.chunkSize
      · by_cases hu : uf s.cycle
        · simp only [runLoop, msgStep, hp, hc, if_true, flushStep, hu, if_pos]
          intro n k hk
          simp only [List.mem_append, List.mem_singleton] at hk
          rcases hk with hk | hk
          · exact h n k hk
          · simp at hk
        · by_cases hcf : cf s.cycle
          · simp only [runLoop, msgStep, hp, hc, if_true, flushStep, hu, hcf,
              Bool.false_eq_true, if_false]
            intro n k hk
            simp only [List.mem_append, List.mem_cons, List.mem_singleton] at hk
            rcases hk with hk | hk | hk
            · exact h n k hk
            · obtain ⟨hn, hkey⟩ := Event.uploadOk.inj hk.symm
              rw [← hkey, ← hn]
            · simp at hk
          · simp only [runLoop, msgStep, hp, hc, if_true, flushStep, hu, hcf,
              Bool.false_eq_true, if_false]
            refine ih _ ?_
            intro n k hk
            simp only [List.mem_append, List.mem_cons, List.mem_singleton] at hk
            rcases hk with hk | hk | hk
            · exact h n k hk
            · obtain ⟨hn, hkey⟩ := Event.uploadOk.inj hk.symm
              rw [← hkey, ← hn]
            · simp at hk
      · simp only [runLoop, msgStep, hp, hc, if_false]
        exact ih { s with chunkCounter := s.chunkCounter + 1
                          archivalBuffer := s.archivalBuffer ++ [b] } h

/-! ## Claims -/

/-- Claim C1: in every execution trace of the archival loop, a broker offset
commit for a batch (successful or failed) is issued only after that batch
cycle's upload has succeeded: every commit event at trace position `i` has a
successful upload event of the same cycle at an earlier position `j < i`. -/
theorem commit_only_after_upload (cfg : Config) (ts : Nat → Nat) (uf cf : Nat → Bool)
    (msgs : List Msg) (i n : Nat)
    (h : (run_archiver cfg ts uf cf msgs).1.events[i]? = some (Event.commitOk n) ∨
      (run_archiver cfg ts uf cf msgs).1.events[i]? = some (Event.commitFail n)) :
    ∃ (j : Nat) (k : String), j < i ∧
      (run_archiver cfg ts uf cf msgs).1.events[j]? = some (Event.uploadOk n k) :=
  cau_runLoop cfg ts uf cf msgs initState cau_nil i n h

/-- Witness for C1 at a concrete run: one message, chunk size one, the commit
at position 1 is preceded by the upload at position 0. -/
theorem commit_only_after_upload_witness :
    ∃ (j : Nat) (k : String), j < 1 ∧
      (run_archiver ⟨"radar-2d", "b", 1⟩ (fun t => t) (fun _ => false) (fun _ => false)
        [⟨some [9]⟩]).1.events[j]? = some (Event.uploadOk 0 k) :=
  commit_only_after_upload ⟨"radar-2d", "b", 1⟩ (fun t => t) (fun _ => false) (fun _ => false)
    [⟨some [9]⟩] 1 0 (Or.inl (by decide))

/-- Claim C2: if an upload succeeds and the immediately following offset
commit fails, the loop terminates with the Kafka-kind error, the failed
commit (preceded by its upload) ends the trace — so no further commits or
uploads are issued — and the already-uploaded artifact is in storage. -/
theorem commit_failure_fatal (cfg : Config) (ts : Nat → Nat) (uf cf : Nat → Bool)
    (msgs : List Msg) (n : Nat)
    (h : Event.commitFail n ∈ (run_archiver cfg ts uf cf msgs).1.events) :
    (run_archiver cfg ts uf cf msgs).2 = Except.error ArchiveError.kafkaError ∧
    ∃ (l : List Event) (key : String),
      (run_archiver cfg ts uf cf msgs).1.events =
        l ++ [Event.uploadOk n key, Event.commitFail n] ∧
      ∃ obj, obj ∈ (run_archiver cfg ts uf cf msgs).1.storage ∧
        obj.key = key ∧ obj.contentEncoding = "zstd" := by
  rcases hr : runLoop cfg ts uf cf msgs initState with ⟨s1, r⟩
  have hes := exit_shape cfg ts uf cf msgs initState noFail_nil s1 r hr
  have hrw : run_archiver cfg ts uf cf msgs = (s1, r) := hr
  rw [hrw] at h ⊢
  cases r with
  | ok u =>
    cases u
    exact absurd h ((hes.1 rfl) n).2
  | error e =>
    cases e with
    | s3Error =>
      obtain ⟨l, n1, hev, hl⟩ := hes.2.1 rfl
      rw [hev] at h
      simp only [List.mem_append, List.mem_singleton] at h
      rcases h with h | h
      · exact absurd h (hl n).2
      · simp at h
    | kafkaError =>
      obtain ⟨l, n1, key, hev, hl, obj, hobj, hkey, henc⟩ := hes.2.2 rfl
      have hn : n = n1 := by
        rw [hev] at h
        simp only [List.mem_append, List.mem_cons, List.mem_singleton] at h
        rcases h with h | h | h
        · exact absurd h (hl n).2
        · simp at h
        · rcases h with h | h
          · exact Event.commitFail.inj h
          · simp at h
      subst hn
      exact ⟨rfl, l, key, hev, obj, hobj, hkey, henc⟩

/-- Witness for C2 at a concrete run: one message, chunk size one, upload
succeeds and the commit is made to fail. -/
theorem commit_failure_fatal_witness :
    Event.commitFail 0 ∈ (run_archiver ⟨"s", "b", 1⟩ (fun t => t) (fun _ => false)
        (fun _ => true) [⟨some [7]⟩]).1.events ∧
    ((run_archiver ⟨"s", "b", 1⟩ (fun t => t) (fun _ => false)
        (fun _ => true) [⟨some [7]⟩]).2 = Except.error ArchiveError.kafkaError ∧
      ∃ (l : List Event) (key : String),
        (run_archiver ⟨"s", "b", 1⟩ (fun t => t) (fun _ => false)
            (fun _ => true) [⟨some [7]⟩]).1.events =
          l ++ [Event.uploadOk 0 key, Event.commitFail 0] ∧
        ∃ obj, obj ∈ (run_archiver ⟨"s", "b", 1⟩ (fun t => t) (fun _ => false)
            (fun _ => true) [⟨some [7]⟩]).1.storage ∧
          obj.key = key ∧ obj.contentEncoding = "zstd") :=
  ⟨by decide,
    commit_failure_fatal ⟨"s", "b", 1⟩ (fun t => t) (fun _ => false) (fun _ => true)
      [⟨some [7]⟩] 0 (by decide)⟩

/-- Claim C3 (refuted as stated — the loop pops the archival buffer from the
back): decoding the decompressed uploaded artifact of the two-record batch
[[1], [2]] yields [[2], [1]], the reverse of the insertion order, not the
batch itself. -/
theorem flush_reverses_order :
    ((run_archiver ⟨"radar-2d", "opensensor-archive", 2⟩ (fun t => t) (fun _ => false)
        (fun _ => false) [⟨some [1]⟩, ⟨some [2]⟩]).1.storage.map
        fun o => decodeFrames (zstdDecompress o.body)) = [some [[2], [1]]] ∧
    ((run_archiver ⟨"radar-2d", "opensensor-archive", 2⟩ (fun t => t) (fun _ => false)
        (fun _ => false) [⟨some [1]⟩, ⟨some [2]⟩]).1.storage.map
        fun o => decodeFrames (zstdDecompress o.body)) ≠ [some [[1], [2]]] := by
  refine ⟨by decide, by decide⟩

/-- Claim C4 (refuted as stated — `chunk_counter` is incremented before the
empty-payload skip): with chunk size 3 and records R1..R7 of which R4 has an
absent payload, the second flush triggers at R6 and contains only
{R5, R6}, and R7 is left unflushed in the buffer (the artifacts also hold
the records in reverse insertion order). -/
theorem empty_payload_counts_toward_trigger :
    ((run_archiver ⟨"radar-2d", "opensensor-archive", 3⟩ (fun t => t) (fun _ => false)
        (fun _ => false)
        [⟨some [1]⟩, ⟨some [2]⟩, ⟨some [3]⟩, ⟨none⟩, ⟨some [5]⟩, ⟨some [6]⟩,
          ⟨some [7]⟩]).1.events =
      [Event.uploadOk 0 (archiveKey "radar-2d" 0), Event.commitOk 0, Event.warnEmpty,
        Event.uploadOk 1 (archiveKey "radar-2d" 1), Event.commitOk 1]) ∧
    ((run_archiver ⟨"radar-2d", "opensensor-archive", 3⟩ (fun t => t) (fun _ => false)
        (fun _ => false)
        [⟨some [1]⟩, ⟨some [2]⟩, ⟨some [3]⟩, ⟨none⟩, ⟨some [5]⟩, ⟨some [6]⟩,
          ⟨some [7]⟩]).1.storage.map
        fun o => decodeFrames (zstdDecompress o.body)) =
      [some [[3], [2], [1]], some [[6], [5]]] ∧
    (run_archiver ⟨"radar-2d", "opensensor-archive", 3⟩ (fun t => t) (fun _ => false)
        (fun _ => false)
        [⟨some [1]⟩, ⟨some [2]⟩, ⟨some [3]⟩, ⟨none⟩, ⟨some [5]⟩, ⟨some [6]⟩,
          ⟨some [7]⟩]).1.archivalBuffer = [[7]] ∧
    (run_archiver ⟨"radar-2d", "opensensor-archive", 3⟩ (fun t => t) (fun _ => false)
        (fun _ => false)
        [⟨some [1]⟩, ⟨some [2]⟩, ⟨some [3]⟩, ⟨none⟩, ⟨some [5]⟩, ⟨some [6]⟩,
          ⟨some [7]⟩]).2 = Except.ok () := by
  refine ⟨by decide, by decide, by decide, rfl⟩

/-- Counterexample to claim C6 as stated: a single transient upload fault is
not retried — the very first upload failure ends the run with the S3-kind
error after exactly one upload attempt and nothing stored. -/
theorem upload_failure_single_fault_terminates :
    (run_archiver ⟨"s", "b", 1⟩ (fun t => t) (fun _ => true) (fun _ => false)
        [⟨some [5]⟩]).2 = Except.error ArchiveError.s3Error ∧
    (run_archiver ⟨"s", "b", 1⟩ (fun t => t) (fun _ => true) (fun _ => false)
        [⟨some [5]⟩]).1.events = [Event.uploadFail 0] ∧
    (run_archiver ⟨"s", "b", 1⟩ (fun t => t) (fun _ => true) (fun _ => false)
        [⟨some [5]⟩]).1.storage = [] := by
  refine ⟨rfl, by decide, rfl⟩

/-- Claim C6 as amended: an upload failure immediately terminates the loop
with the S3-kind error — no retry, and no further uploads or commits (the
failing upload is the last event); the fault is surfaced to the process
boundary rather than the batch being silently dropped. -/
theorem upload_failure_fatal (cfg : Config) (ts : Nat → Nat) (uf cf : Nat → Bool)
    (msgs : List Msg) (n : Nat)
    (h : Event.uploadFail n ∈ (run_archiver cfg ts uf cf msgs).1.events) :
    (run_archiver cfg ts uf cf msgs).2 = Except.error ArchiveError.s3Error ∧
    ∃ l : List Event, (run_archiver cfg ts uf cf msgs).1.events =
      l ++ [Event.uploadFail n] := by
  rcases hr : runLoop cfg ts uf cf msgs initState with ⟨s1, r⟩
  have hes := exit_shape cfg ts uf cf msgs initState noFail_nil s1 r hr
  have hrw : run_archiver cfg ts uf cf msgs = (s1, r) := hr
  rw [hrw] at h ⊢
  cases r with
  | ok u =>
    cases u
    exact absurd h ((hes.1 rfl) n).1
  | error e =>
    cases e with
    | s3Error =>
      obtain ⟨l, n1, hev, hl⟩ := hes.2.1 rfl
      have hn : n = n1 := by
        rw [hev] at h
        simp only [List.mem_append, List.mem_singleton] at h
        rcases h with h | h
        · exact absurd h (hl n).1
        · exact Event.uploadFail.inj h
      subst hn
      exact ⟨rfl, l, hev⟩
    | kafkaError =>
      obtain ⟨l, n1, key, hev, hl, _⟩ := hes.2.2 rfl
      rw [hev] at h
      simp only [List.mem_append, List.mem_cons, List.mem_singleton] at h
      rcases h with h | h | h
      · exact absurd h (hl n).1
      · simp at h
      · rcases h with h | h <;> simp at h

/-- Witness for the amended C6 at a concrete run: the single upload fault
ends the trace with its `uploadFail` event and the S3-kind error. -/
theorem upload_failure_fatal_witness :
    Event.uploadFail 0 ∈ (run_archiver ⟨"w", "b", 1⟩ (fun t => t) (fun _ => true)
        (fun _ => false) [⟨some [6]⟩]).1.events ∧
    ((run_archiver ⟨"w", "b", 1⟩ (fun t => t) (fun _ => true)
        (fun _ => false) [⟨some [6]⟩]).2 = Except.error ArchiveError.s3Error ∧
      ∃ l : List Event, (run_archiver ⟨"w", "b", 1⟩ (fun t => t) (fun _ => true)
          (fun _ => false) [⟨some [6]⟩]).1.events = l ++ [Event.uploadFail 0]) :=
  ⟨by decide,
    upload_failure_fatal ⟨"w", "b", 1⟩ (fun t => t) (fun _ => true) (fun _ => false)
      [⟨some [6]⟩] 0 (by decide)⟩

/-- Claim C5: feeding exactly `chunk_size` records with present payloads to
the empty accumulator, every proper prefix triggers no flush (the counter
simply tracks the number of appends), the flush happens exactly on the
`chunk_size`-th append (one upload followed by its commit), and afterwards
the counter is reset to zero with an empty buffer. -/
theorem batch_boundary_exact (cfg : Config) (ts : Nat → Nat) (uf cf : Nat → Bool)
    (ps : List Bytes) (hn : 0 < cfg.chunkSize) (hlen : ps.length = cfg.chunkSize)
    (huf : uf 0 = false) (hcf : cf 0 = false) :
    (∀ k : Nat, k < cfg.chunkSize →
      (run_archiver cfg ts uf cf ((ps.take k).map fun p => Msg.mk (some p))).1.events = [] ∧
      (run_archiver cfg ts uf cf ((ps.take k).map fun p => Msg.mk (some p))).1.chunkCounter = k) ∧
    (run_archiver cfg ts uf cf (ps.map fun p => Msg.mk (some p))).1.events =
      [Event.uploadOk 0 (archiveKey cfg.sensorName (ts 0)), Event.commitOk 0] ∧
    (run_archiver cfg ts uf cf (ps.map fun p => Msg.mk (some p))).1.chunkCounter = 0 ∧
    (run_archiver cfg ts uf cf (ps.map fun p => Msg.mk (some p))).1.archivalBuffer = [] := by
  constructor
  · intro k hk
    have hlt : initState.chunkCounter + (ps.take k).length < cfg.chunkSize := by
      simp only [initState, List.length_take]
      omega
    have hacc := runLoop_accum cfg ts uf cf (ps.take k) initState hlt
    unfold run_archiver
    rw [hacc]
    constructor
    · rfl
    · simp only [initState, List.length_take]
      omega
  · have htd : ps.take (cfg.chunkSize - 1) ++ ps.drop (cfg.chunkSize - 1) = ps :=
      List.take_append_drop _ _
    obtain ⟨p, hp⟩ : ∃ p, ps.drop (cfg.chunkSize - 1) = [p] := by
      apply List.length_eq_one.mp
      simp only [List.length_drop]
      omega
    have hmap : ps.map (fun p => Msg.mk (some p)) =
        (ps.take (cfg.chunkSize - 1)).map (fun p => Msg.mk (some p)) ++ [Msg.mk (some p)] := by
      conv_lhs => rw [← htd]
      rw [List.map_append, hp]
      rfl
    have hitake : (ps.take (cfg.chunkSize - 1)).length = cfg.chunkSize - 1 := by
      simp only [List.length_take]
      omega
    have hlt : initState.chunkCounter + (ps.take (cfg.chunkSize - 1)).length < cfg.chunkSize := by
      simp only [initState, hitake]
      omega
    have hacc := runLoop_accum cfg ts uf cf (ps.take (cfg.chunkSize - 1)) initState hlt
    have happ := runLoop_append_ok cfg ts uf cf
      ((ps.take (cfg.chunkSize - 1)).map fun p => Msg.mk (some p)) [Msg.mk (some p)]
      initState _ hacc
    unfold run_archiver
    rw [hmap, happ]
    have hcond : (0 : Nat) + (ps.take (cfg.chunkSize - 1)).length + 1 = cfg.chunkSize := by
      rw [hitake]
      omega
    simp only [initState, runLoop, msgStep, flushStep, hcond, if_true, huf,
      Bool.false_eq_true, if_false, hcf]
    simp

/-- Witness for C5 at a concrete run: chunk size 3 with records
[[1], [2], [3]]. -/
theorem batch_boundary_exact_witness :
    (∀ k : Nat, k < (3 : Nat) →
      (run_archiver ⟨"s", "b", 3⟩ (fun t => t) (fun _ => false) (fun _ => false)
        (([[1], [2], [3]].take k).map fun p => Msg.mk (some p))).1.events = [] ∧
      (run_archiver ⟨"s", "b", 3⟩ (fun t => t) (fun _ => false) (fun _ => false)
        (([[1], [2], [3]].take k).map fun p => Msg.mk (some p))).1.chunkCounter = k) ∧
    (run_archiver ⟨"s", "b", 3⟩ (fun t => t) (fun _ => false) (fun _ => false)
      ([[1], [2], [3]].map fun p => Msg.mk (some p))).1.events =
      [Event.uploadOk 0 (archiveKey "s" 0), Event.commitOk 0] ∧
    (run_archiver ⟨"s", "b", 3⟩ (fun t => t) (fun _ => false) (fun _ => false)
      ([[1], [2], [3]].map fun p => Msg.mk (some p))).1.chunkCounter = 0 ∧
    (run_archiver ⟨"s", "b", 3⟩ (fun t => t) (fun _ => false) (fun _ => false)
      ([[1], [2], [3]].map fun p => Msg.mk (some p))).1.archivalBuffer = [] :=
  batch_boundary_exact ⟨"s", "b", 3⟩ (fun t => t) (fun _ => false) (fun _ => false)
    [[1], [2], [3]] (by decide) rfl rfl rfl

/-- Counterexample to claim C7 as stated: the stream ends (shutdown) with 2
of 3 records accumulated, and the loop terminates cleanly with no final
flush — no upload, no commit, nothing stored — leaving the two records in
the buffer, which is then dropped. -/
theorem shutdown_discards_partial :
    (run_archiver ⟨"s", "b", 3⟩ (fun t => t) (fun _ => false) (fun _ => false)
        [⟨some [1]⟩, ⟨some [2]⟩]).2 = Except.ok () ∧
    (run_archiver ⟨"s", "b", 3⟩ (fun t => t) (fun _ => false) (fun _ => false)
        [⟨some [1]⟩, ⟨some [2]⟩]).1.events = [] ∧
    (run_archiver ⟨"s", "b", 3⟩ (fun t => t) (fun _ => false) (fun _ => false)
        [⟨some [1]⟩, ⟨some [2]⟩]).1.storage = [] ∧
    (run_archiver ⟨"s", "b", 3⟩ (fun t => t) (fun _ => false) (fun _ => false)
        [⟨some [1]⟩, ⟨some [2]⟩]).1.archivalBuffer = [[1], [2]] := by
  refine ⟨rfl, by decide, rfl, by decide⟩

/-- Claim C7 as amended: when the consumed stream ends with a non-empty
partial batch (fewer than `chunk_size` records, payloads present), the loop
terminates cleanly with success but performs no final flush: no upload or
commit is issued, nothing is stored, and the accumulated records remain in
the (then discarded) buffer. -/
theorem shutdown_no_final_flush (cfg : Config) (ts : Nat → Nat) (uf cf : Nat → Bool)
    (ps : List Bytes) (hne : ps ≠ []) (hlt : ps.length < cfg.chunkSize) :
    (run_archiver cfg ts uf cf (ps.map fun p => Msg.mk (some p))).2 = Except.ok () ∧
    (run_archiver cfg ts uf cf (ps.map fun p => Msg.mk (some p))).1.events = [] ∧
    (run_archiver cfg ts uf cf (ps.map fun p => Msg.mk (some p))).1.storage = [] ∧
    (run_archiver cfg ts uf cf (ps.map fun p => Msg.mk (some p))).1.archivalBuffer = ps ∧
    (run_archiver cfg ts uf cf (ps.map fun p => Msg.mk (some p))).1.archivalBuffer ≠ [] := by
  have hacc := runLoop_accum cfg ts uf cf ps initState (by simp [initState]; omega)
  unfold run_archiver
  rw [hacc]
  refine ⟨rfl, rfl, rfl, by simp [initState], by simp [initState, hne]⟩

/-- Witness for the amended C7 at a concrete run: two records with chunk
size 3. -/
theorem shutdown_no_final_flush_witness :
    (run_archiver ⟨"s", "c", 3⟩ (fun t => t) (fun _ => false) (fun _ => false)
      ([[1], [2]].map fun p => Msg.mk (some p))).2 = Except.ok () ∧
    (run_archiver ⟨"s", "c", 3⟩ (fun t => t) (fun _ => false) (fun _ => false)
      ([[1], [2]].map fun p => Msg.mk (some p))).1.events = [] ∧
    (run_archiver ⟨"s", "c", 3⟩ (fun t => t) (fun _ => false) (fun _ => false)
      ([[1], [2]].map fun p => Msg.mk (some p))).1.storage = [] ∧
    (run_archiver ⟨"s", "c", 3⟩ (fun t => t) (fun _ => false) (fun _ => false)
      ([[1], [2]].map fun p => Msg.mk (some p))).1.archivalBuffer = [[1], [2]] ∧
    (run_archiver ⟨"s", "c", 3⟩ (fun t => t) (fun _ => false) (fun _ => false)
      ([[1], [2]].map fun p => Msg.mk (some p))).1.archivalBuffer ≠ [] :=
  shutdown_no_final_flush ⟨"s", "c", 3⟩ (fun t => t) (fun _ => false) (fun _ => false)
    [[1], [2]] (by decide) (by decide)

/-- Claim C8: every successful flush uploads under the key
`{source}/{RFC3339 archival timestamp}` computed from the configured sensor
name and that flush cycle's wall-clock time, and — provided the wall clock
gives distinct flush cycles distinct timestamps — the keys of distinct
flushes are distinct, so no flush silently overwrites a prior archive. -/
theorem archive_key_form_unique (cfg : Config) (ts : Nat → Nat) (uf cf : Nat → Bool)
    (msgs : List Msg) :
    (∀ (n : Nat) (k : String),
      Event.uploadOk n k ∈ (run_archiver cfg ts uf cf msgs).1.events →
        k = archiveKey cfg.sensorName (ts n)) ∧
    (Function.Injective ts →
      ∀ (n m : Nat) (k k' : String),
        Event.uploadOk n k ∈ (run_archiver cfg ts uf cf msgs).1.events →
        Event.uploadOk m k' ∈ (run_archiver cfg ts uf cf msgs).1.events →
        n ≠ m → k ≠ k') := by
  have hform := keysWellFormed_runLoop cfg ts uf cf msgs initState
    (by intro n k hk; simp [initState] at hk)
  refine ⟨hform, ?_⟩
  intro hts n m k k' hk hk' hnm heq
  have h1 := hform n k hk
  have h2 := hform m k' hk'
  rw [h1, h2] at heq
  exact hnm (hts (archiveKey_inj cfg.sensorName (ts n) (ts m) heq))

/-- Witness for C8 at a concrete run: two single-record flushes with an
injective clock produce the two expected keys, and they differ. -/
theorem archive_key_form_unique_witness :
    Event.uploadOk 0 (archiveKey "radar-2d" 0) ∈
      (run_archiver ⟨"radar-2d", "b", 1⟩ (fun t => t) (fun _ => false) (fun _ => false)
        [⟨some [1]⟩, ⟨some [2]⟩]).1.events ∧
    Event.uploadOk 1 (archiveKey "radar-2d" 1) ∈
      (run_archiver ⟨"radar-2d", "b", 1⟩ (fun t => t) (fun _ => false) (fun _ => false)
        [⟨some [1]⟩, ⟨some [2]⟩]).1.events ∧
    archiveKey "radar-2d" 0 ≠ archiveKey "radar-2d" 1 := by
  refine ⟨by decide, by decide, ?_⟩
  exact (archive_key_form_unique ⟨"radar-2d", "b", 1⟩ (fun t => t) (fun _ => false)
      (fun _ => false) [⟨some [1]⟩, ⟨some [2]⟩]).2 (fun a b hab => hab) 0 1
      (archiveKey "radar-2d" 0) (archiveKey "radar-2d" 1) (by decide) (by decide) (by decide)

/-- Claim C9: `upload_object_zstd` stores as the object body exactly the
zstd compression of the input bytes, tags the object with the
content-encoding "zstd", and decompressing the stored body recovers the
input bytes exactly. -/
theorem upload_object_zstd_spec (dataUncompressed : Bytes) (bucketName key : String) :
    (upload_object_zstd dataUncompressed bucketName key).body =
      zstdCompress dataUncompressed ∧
    (upload_object_zstd dataUncompressed bucketName key).contentEncoding = "zstd" ∧
    zstdDecompress (upload_object_zstd dataUncompressed bucketName key).body =
      dataUncompressed :=
  ⟨rfl, rfl, zstd_roundtrip dataUncompressed⟩

/-- Claim C10: the default `Measurement::from_message` returns the
measurement type's empty-payload error on a message without payload, returns
`from_bytes` of the payload when one is present, and — whenever the
implementer's `from_bytes` never itself produces the empty-payload error
value — returns the empty-payload error exactly on payload-less
messages. -/
theorem from_message_spec {α ε : Type} (from_bytes : Bytes → Except ε α) (e : ε) (m : Msg) :
    (m.payload = none → from_message from_bytes e m = Except.error e) ∧
    (∀ b, m.payload = some b → from_message from_bytes e m = from_bytes b) ∧
    ((∀ b, from_bytes b ≠ Except.error e) →
      (from_message from_bytes e m = Except.error e ↔ m.payload = none)) := by
  obtain ⟨p⟩ := m
  cases p with
  | none =>
    refine ⟨fun _ => rfl, fun b hb => ?_, fun _ => by simp [from_message]⟩
    simp at hb
  | some b0 =>
    refine ⟨fun hb => by simp at hb, fun b hb => ?_, fun hb => ?_⟩
    · have : b = b0 := (Option.some.inj hb).symm
      rw [this]
      rfl
    · simp [from_message, hb b0]

/-- Witness for C10 at a concrete instantiation (`from_bytes` returning the
payload length, error values in `Nat`). -/
theorem from_message_spec_witness :
    from_message (fun b : Bytes => (Except.ok b.length : Except Nat Nat)) 0 ⟨none⟩ =
      Except.error 0 ∧
    from_message (fun b : Bytes => (Except.ok b.length : Except Nat Nat)) 0 ⟨some [1, 2]⟩ =
      Except.ok 2 := by
  constructor
  · exact (from_message_spec (fun b : Bytes => (Except.ok b.length : Except Nat Nat)) 0
      ⟨none⟩).1 rfl
  · have h := (from_message_spec (fun b : Bytes => (Except.ok b.length : Except Nat Nat)) 0
      ⟨some [1, 2]⟩).2.1 [1, 2] rfl
    simpa using h
